import Mathlib

set_option maxHeartbeats 1000000

/-!
Verification of the SaveRestoreLayout KiCad plugin (save_restore_layout.py)
against its natural-language specification.

The Python source is shallowly embedded: pure helpers become Lean functions,
board mutation becomes explicit state passing over lists of footprint poses,
and calls into the external pcbnew document model (geometry queries, flips,
coordinate transforms, which the specification treats as an external
collaborator) are abstracted as function parameters or boolean fields that
record the result of the external query.  Python IndexError / ValueError
crashes are modelled as `none` / `Except.error`.  File contents are embedded
as `List Char`; version strings are embedded after their `split "."` /
`int` parse as `List Nat`.
-/

/-! ## semver_compare (save_restore_layout.py, lines 145-153)

`semver_compare ver_1 ver_2` loops over the common prefix of the two
component lists, returning `false` as soon as a component of `ver_2` is
larger, `true` as soon as one is smaller, and `true` when the common prefix
is exhausted. -/

def semver_compare : List Nat → List Nat → Bool
  | _, [] => true
  | [], _ :: _ => true
  | a :: as, b :: bs =>
    if b > a then false
    else if b < a then true
    else semver_compare as bs

/-- Modelled from the spec: "the saved version exceeds the running engine's
version under component-wise numeric comparison" — `verGt a b` decides
whether version `a` strictly exceeds version `b`, missing trailing
components reading as zero. -/
def verGt : List Nat → List Nat → Bool
  | [], _ => false
  | a :: as, [] => if a > 0 then true else verGt as []
  | a :: as, b :: bs =>
    if a > b then true
    else if a < b then false
    else verGt as bs

/-! ## PrjData.get_footprints_bounding_box (lines 429-448)

The Python code reads `footprints[0]` unconditionally — an IndexError on an
empty list, modelled as `none` — and then folds min/max of the members'
bounding-box edges over the whole list.  Bounding boxes of footprints come
from the external document model, so a footprint is represented here by its
box. -/

structure BBox where
  top : Int
  bottom : Int
  left : Int
  right : Int
deriving DecidableEq

def bboxUnion (acc x : BBox) : BBox :=
  { top := min acc.top x.top
    bottom := max acc.bottom x.bottom
    left := min acc.left x.left
    right := max acc.right x.right }

def get_footprints_bounding_box : List BBox → Option BBox
  | [] => none
  | b :: bs => some ((b :: bs).foldl bboxUnion b)

theorem foldl_union_top (l : List BBox) :
    ∀ acc : BBox, (l.foldl bboxUnion acc).top = l.foldl (fun a x => min a x.top) acc.top := by
  induction l with
  | nil => intro acc; rfl
  | cons x xs ih => intro acc; simpa [bboxUnion] using ih (bboxUnion acc x)

theorem foldl_union_bottom (l : List BBox) :
    ∀ acc : BBox, (l.foldl bboxUnion acc).bottom = l.foldl (fun a x => max a x.bottom) acc.bottom := by
  induction l with
  | nil => intro acc; rfl
  | cons x xs ih => intro acc; simpa [bboxUnion] using ih (bboxUnion acc x)

theorem foldl_union_left (l : List BBox) :
    ∀ acc : BBox, (l.foldl bboxUnion acc).left = l.foldl (fun a x => min a x.left) acc.left := by
  induction l with
  | nil => intro acc; rfl
  | cons x xs ih => intro acc; simpa [bboxUnion] using ih (bboxUnion acc x)

theorem foldl_union_right (l : List BBox) :
    ∀ acc : BBox, (l.foldl bboxUnion acc).right = l.foldl (fun a x => max a x.right) acc.right := by
  induction l with
  | nil => intro acc; rfl
  | cons x xs ih => intro acc; simpa [bboxUnion] using ih (bboxUnion acc x)

theorem foldl_min_le (g : BBox → Int) (l : List BBox) :
    ∀ a : Int, l.foldl (fun a x => min a (g x)) a ≤ a ∧
      ∀ x ∈ l, l.foldl (fun a x => min a (g x)) a ≤ g x := by
  induction l with
  | nil => intro a; exact ⟨le_refl a, by simp⟩
  | cons y ys ih =>
    intro a
    have h := ih (min a (g y))
    refine ⟨le_trans h.1 (min_le_left _ _), ?_⟩
    intro x hx
    rcases List.mem_cons.mp hx with h' | h'
    · subst h'; exact le_trans h.1 (min_le_right _ _)
    · exact h.2 x h'

theorem foldl_max_le (g : BBox → Int) (l : List BBox) :
    ∀ a : Int, a ≤ l.foldl (fun a x => max a (g x)) a ∧
      ∀ x ∈ l, g x ≤ l.foldl (fun a x => max a (g x)) a := by
  induction l with
  | nil => intro a; exact ⟨le_refl a, by simp⟩
  | cons y ys ih =>
    intro a
    have h := ih (max a (g y))
    refine ⟨le_trans (le_max_left _ _) h.1, ?_⟩
    intro x hx
    rcases List.mem_cons.mp hx with h' | h'
    · subst h'; exact le_trans (le_max_right _ _) h.1
    · exact h.2 x h'

theorem foldl_min_mem (g : BBox → Int) (l : List BBox) :
    ∀ a : Int, l.foldl (fun a x => min a (g x)) a = a ∨
      l.foldl (fun a x => min a (g x)) a ∈ l.map g := by
  induction l with
  | nil => intro a; exact Or.inl rfl
  | cons y ys ih =>
    intro a
    rcases ih (min a (g y)) with h | h
    · rcases min_choice a (g y) with h' | h'
      · exact Or.inl (h.trans h')
      · exact Or.inr (by simp [h.trans h'])
    · exact Or.inr (by simp [h])

theorem foldl_max_mem (g : BBox → Int) (l : List BBox) :
    ∀ a : Int, l.foldl (fun a x => max a (g x)) a = a ∨
      l.foldl (fun a x => max a (g x)) a ∈ l.map g := by
  induction l with
  | nil => intro a; exact Or.inl rfl
  | cons y ys ih =>
    intro a
    rcases ih (max a (g y)) with h | h
    · rcases max_choice a (g y) with h' | h'
      · exact Or.inl (h.trans h')
      · exact Or.inr (by simp [h.trans h'])
    · exact Or.inr (by simp [h])

/-- Claim C10: the bounding-box computation fails (unhandled out-of-bounds
read of the first footprint, modelled as `none`) exactly on an empty
selection, and on every non-empty selection it returns the rectangle
spanning the minimum top/left and the maximum bottom/right of the members'
boxes. -/
theorem bounding_box_empty_none_and_nonempty_spans :
    get_footprints_bounding_box [] = none ∧
    ∀ (b : BBox) (bs : List BBox) (r : BBox),
      get_footprints_bounding_box (b :: bs) = some r →
      ((∀ x ∈ b :: bs, r.top ≤ x.top ∧ x.bottom ≤ r.bottom ∧
          r.left ≤ x.left ∧ x.right ≤ r.right) ∧
        r.top ∈ (b :: bs).map BBox.top ∧ r.bottom ∈ (b :: bs).map BBox.bottom ∧
        r.left ∈ (b :: bs).map BBox.left ∧ r.right ∈ (b :: bs).map BBox.right) := by
  refine ⟨rfl, ?_⟩
  intro b bs r hr
  have hrdef : r = (b :: bs).foldl bboxUnion b := by
    simpa [get_footprints_bounding_box] using hr.symm
  have htop : r.top = (b :: bs).foldl (fun a x => min a x.top) b.top := by
    rw [hrdef]; exact foldl_union_top _ _
  have hbot : r.bottom = (b :: bs).foldl (fun a x => max a x.bottom) b.bottom := by
    rw [hrdef]; exact foldl_union_bottom _ _
  have hleft : r.left = (b :: bs).foldl (fun a x => min a x.left) b.left := by
    rw [hrdef]; exact foldl_union_left _ _
  have hright : r.right = (b :: bs).foldl (fun a x => max a x.right) b.right := by
    rw [hrdef]; exact foldl_union_right _ _
  constructor
  · intro x hx
    refine ⟨?_, ?_, ?_, ?_⟩
    · rw [htop]; exact (foldl_min_le BBox.top (b :: bs) b.top).2 x hx
    · rw [hbot]; exact (foldl_max_le BBox.bottom (b :: bs) b.bottom).2 x hx
    · rw [hleft]; exact (foldl_min_le BBox.left (b :: bs) b.left).2 x hx
    · rw [hright]; exact (foldl_max_le BBox.right (b :: bs) b.right).2 x hx
  · refine ⟨?_, ?_, ?_, ?_⟩
    · rw [htop]
      rcases foldl_min_mem BBox.top (b :: bs) b.top with h | h
      · rw [h]; simp
      · exact h
    · rw [hbot]
      rcases foldl_max_mem BBox.bottom (b :: bs) b.bottom with h | h
      · rw [h]; simp
      · exact h
    · rw [hleft]
      rcases foldl_min_mem BBox.left (b :: bs) b.left with h | h
      · rw [h]; simp
      · exact h
    · rw [hright]
      rcases foldl_max_mem BBox.right (b :: bs) b.right with h | h
      · rw [h]; simp
      · exact h

/-- Witness for C10: the theorem applied to a concrete two-footprint
selection. -/
theorem bounding_box_empty_none_and_nonempty_spans_witness :
    get_footprints_bounding_box [⟨0, 1, 0, 1⟩, ⟨-1, 2, 3, 4⟩] =
      some ⟨-1, 2, 0, 4⟩ ∧
    (∀ x ∈ [(⟨0, 1, 0, 1⟩ : BBox), ⟨-1, 2, 3, 4⟩],
        (-1 : Int) ≤ x.top ∧ x.bottom ≤ 2 ∧ (0 : Int) ≤ x.left ∧ x.right ≤ 4) := by
  have h := bounding_box_empty_none_and_nonempty_spans
  have heq : get_footprints_bounding_box [⟨0, 1, 0, 1⟩, ⟨-1, 2, 3, 4⟩] =
      some ⟨-1, 2, 0, 4⟩ := by decide
  refine ⟨heq, ?_⟩
  have h2 := (h.2 ⟨0, 1, 0, 1⟩ [⟨-1, 2, 3, 4⟩] ⟨-1, 2, 0, 4⟩ heq).1
  intro x hx
  exact h2 x hx

/-- Claim C6 counterexample: with engine version "1.0" and saved version
"1.0.1" the saved version exceeds the engine's under component-wise numeric
comparison (missing components read as zero), yet the version gate accepts
the snapshot (`semver_compare VERSION saved` is `true`, so
`restore_layout` does not raise), refuting "rejects exactly when the saved
version exceeds the engine's". -/
theorem version_gate_accepts_longer_saved_version :
    semver_compare [1, 0] [1, 0, 1] = true ∧ verGt [1, 0, 1] [1, 0] = true ∧
      ¬ (semver_compare [1, 0] [1, 0, 1] = false ↔ verGt [1, 0, 1] [1, 0] = true) := by
  decide

theorem verGt_irrefl (x : List Nat) : verGt x x = false := by
  induction x with
  | nil => rfl
  | cons a as ih =>
    simp only [verGt]
    rw [if_neg (lt_irrefl a), if_neg (lt_irrefl a)]
    exact ih

theorem semver_accept_of_le (eng sv : List Nat) :
    verGt sv eng = false → semver_compare eng sv = true := by
  induction eng generalizing sv with
  | nil =>
    intro _
    cases sv with
    | nil => rfl
    | cons b bs => rfl
  | cons a as ih =>
    intro hle
    cases sv with
    | nil => rfl
    | cons b bs =>
      by_cases hba : b > a
      · exfalso
        have hT : verGt (b :: bs) (a :: as) = true := by
          simp only [verGt]
          rw [if_pos hba]
        rw [hT] at hle
        exact Bool.noConfusion hle
      · by_cases hab : b < a
        · simp only [semver_compare]
          rw [if_neg hba, if_pos hab]
        · have hedge : a = b := le_antisymm (not_lt.mp hab) (not_lt.mp hba)
          subst hedge
          have hrec : verGt bs as = false := by
            have hE : verGt (a :: bs) (a :: as) = verGt bs as := by
              simp only [verGt]
              rw [if_neg (lt_irrefl a), if_neg (lt_irrefl a)]
            rw [hE] at hle
            exact hle
          simp only [semver_compare]
          rw [if_neg hba, if_neg hab]
          exact ih bs hrec

theorem semver_reject_iff_common_exceeds (eng sv : List Nat) :
    semver_compare eng sv = false ↔
      verGt (sv.take eng.length) (eng.take sv.length) = true := by
  induction eng generalizing sv with
  | nil =>
    cases sv with
    | nil => simp [semver_compare, verGt]
    | cons b bs => simp [semver_compare, verGt]
  | cons a as ih =>
    cases sv with
    | nil => simp [semver_compare, verGt]
    | cons b bs =>
      simp only [List.length_cons, List.take_succ_cons]
      by_cases hba : b > a
      · have h1 : semver_compare (a :: as) (b :: bs) = false := by
          simp only [semver_compare]
          rw [if_pos hba]
        have h2 : verGt (b :: bs.take as.length) (a :: as.take bs.length) = true := by
          simp only [verGt]
          rw [if_pos hba]
        rw [h1, h2]
        simp
      · by_cases hab : b < a
        · have h1 : semver_compare (a :: as) (b :: bs) = true := by
            simp only [semver_compare]
            rw [if_neg hba, if_pos hab]
          have h2 : verGt (b :: bs.take as.length) (a :: as.take bs.length) = false := by
            simp only [verGt]
            rw [if_neg hba, if_pos hab]
          rw [h1, h2]
          simp
        · have hedge : a = b := le_antisymm (not_lt.mp hab) (not_lt.mp hba)
          subst hedge
          have h1 : semver_compare (a :: as) (a :: bs) = semver_compare as bs := by
            simp only [semver_compare]
            rw [if_neg (lt_irrefl a), if_neg (lt_irrefl a)]
          have h2 : verGt (a :: bs.take as.length) (a :: as.take bs.length) =
              verGt (bs.take as.length) (as.take bs.length) := by
            simp only [verGt]
            rw [if_neg (lt_irrefl a), if_neg (lt_irrefl a)]
          rw [h1, h2]
          exact ih bs

/-- Claim C6 amended: for version component lists of any lengths, the gate
rejects exactly when the saved version exceeds the engine's on the
common-length prefix (each list truncated to the other's length, compared
component-wise); it accepts whenever the saved version is less than or
equal to the engine's under zero-padded component-wise comparison, and it
also accepts whenever the common prefixes are equal — in particular a saved
version that exceeds the engine's only by extra trailing components is
(incorrectly for forward compatibility, as the counterexample shows)
accepted. -/
theorem version_gate_amended (eng sv : List Nat) :
    (semver_compare eng sv = false ↔
      verGt (sv.take eng.length) (eng.take sv.length) = true) ∧
    (verGt sv eng = false → semver_compare eng sv = true) ∧
    (sv.take eng.length = eng.take sv.length → semver_compare eng sv = true) := by
  refine ⟨semver_reject_iff_common_exceeds eng sv, semver_accept_of_le eng sv, ?_⟩
  intro hpre
  cases hcs : semver_compare eng sv with
  | true => rfl
  | false =>
    exfalso
    have h1 := (semver_reject_iff_common_exceeds eng sv).mp hcs
    rw [hpre, verGt_irrefl] at h1
    exact Bool.noConfusion h1

/-- Witness for the amended C6 theorem at concrete versions: engine "1.0.0"
accepts saved "0.9.9" (saved less than or equal, zero-padded); engine "1.0"
accepts saved "1.0.1" (equal common prefix, longer saved); and the
unequal-length pair engine "1.5" versus saved "2" falls under the
common-prefix rejection rule. -/
theorem version_gate_amended_witness :
    semver_compare [1, 0, 0] [0, 9, 9] = true ∧
    semver_compare [1, 0] [1, 0, 1] = true ∧
    (semver_compare [1, 5] [2] = false ↔
      verGt (List.take ([1, 5] : List Nat).length [2])
        (List.take ([2] : List Nat).length [1, 5]) = true) :=
  ⟨(version_gate_amended [1, 0, 0] [0, 9, 9]).2.1 (by decide),
    (version_gate_amended [1, 0] [1, 0, 1]).2.2 (by decide),
    (version_gate_amended [1, 5] [2]).1⟩

/-! ## Net lookup and element replication (RestoreLayout, lines 1206-1419)

`lookupNet` embeds the Python list comprehension
`[item for item in net_pairs if item[0] == from_net_name]`.
`replicate_tracks` (lines 1229-1232) skips a track whose net has no
correspondence (`if not tup: pass`); `replicate_drawings` (lines 1407-1413)
has no such guard and evaluates `tup[0]` on the empty list — an IndexError,
modelled as `Except.error`.  The geometric part of the replication (duplicate,
move, rotate, flip) acts on fields this claim does not mention and is elided;
each element is represented by its connectivity data. -/

def lookupNet (netPairs : List (String × String)) (n : String) : List (String × String) :=
  netPairs.filter (fun p => p.1 == n)

structure EDrawing where
  connected : Bool
  net : String
deriving DecidableEq

def replicate_one_drawing (netPairs : List (String × String)) (d : EDrawing) :
    Except String EDrawing :=
  if d.connected then
    match lookupNet netPairs d.net with
    | [] => .error "IndexError"
    | p :: _ => .ok { d with net := p.2 }
  else .ok d

def replicate_drawings (netPairs : List (String × String)) :
    List EDrawing → Except String (List EDrawing)
  | [] => .ok []
  | d :: ds =>
    match replicate_one_drawing netPairs d with
    | .error e => .error e
    | .ok d' =>
      match replicate_drawings netPairs ds with
      | .error e => .error e
      | .ok rest => .ok (d' :: rest)

structure ETrack where
  net : String
deriving DecidableEq

def replicate_tracks (netPairs : List (String × String)) (ts : List ETrack) : List ETrack :=
  ts.filterMap (fun t =>
    match lookupNet netPairs t.net with
    | [] => none
    | p :: _ => some { net := p.2 })

def isOkB {α : Type} : Except String α → Bool
  | .ok _ => true
  | .error _ => false

/-- Claim C7 counterexample: a connected drawing whose net name "N2" has no
entry in the net correspondence mapping is not logged-and-skipped — the
replication aborts with an unhandled IndexError (`tup[0]` on an empty
list), so the following drawing with a perfectly good net is never placed
either.  A track in the same situation, by contrast, is silently skipped. -/
theorem drawing_missing_net_raises :
    replicate_drawings [("N1", "M1")] [⟨true, "N2"⟩, ⟨true, "N1"⟩] =
      .error "IndexError" ∧
    replicate_tracks [("N1", "M1")] [⟨"N2"⟩, ⟨"N1"⟩] = [⟨"M1"⟩] := by
  constructor
  · rfl
  · rfl

/-- Claim C7 amended: drawing replication succeeds exactly when no connected
drawing has a net name missing from the correspondence mapping; a missing
entry raises an unhandled IndexError that propagates to the caller instead
of being logged and skipped (only tracks are skipped that way). -/
theorem replicate_drawings_error_iff (netPairs : List (String × String))
    (ds : List EDrawing) :
    isOkB (replicate_drawings netPairs ds) =
      ! ds.any (fun d => d.connected && (lookupNet netPairs d.net).isEmpty) := by
  induction ds with
  | nil => rfl
  | cons d ds ih =>
    by_cases hc : d.connected
    · cases hl : lookupNet netPairs d.net with
      | nil =>
        simp [replicate_drawings, replicate_one_drawing, hc, hl, isOkB]
      | cons p ps =>
        cases hrest : replicate_drawings netPairs ds with
        | error e =>
          have : isOkB (replicate_drawings netPairs ds) = false := by
            rw [hrest]; rfl
          rw [this] at ih
          simp [replicate_drawings, replicate_one_drawing, hc, hl, hrest, isOkB, ← ih]
        | ok rest =>
          have : isOkB (replicate_drawings netPairs ds) = true := by
            rw [hrest]; rfl
          rw [this] at ih
          simp [replicate_drawings, replicate_one_drawing, hc, hl, hrest, isOkB, ← ih]
    · have hcf : d.connected = false := by
        exact Bool.not_eq_true _ ▸ (by simpa using hc)
      cases hrest : replicate_drawings netPairs ds with
      | error e =>
        have h2 : isOkB (replicate_drawings netPairs ds) = false := by
          rw [hrest]; rfl
        rw [h2] at ih
        simp [replicate_drawings, replicate_one_drawing, hcf, hrest, isOkB, ← ih]
      | ok rest =>
        have h2 : isOkB (replicate_drawings netPairs ds) = true := by
          rw [hrest]; rfl
        rw [h2] at ih
        simp [replicate_drawings, replicate_one_drawing, hcf, hrest, isOkB, ← ih]

/-! ## PrjData.get_local_nets (lines 398-427) and the save-path removals
(SaveLayout.remove_tracks / remove_zones / remove_drawings, lines 559-649)

Pads and geometry live in the external document model: a footprint is
represented by the list of net names on its pads, and a track/zone/drawing
records the result of the two geometric queries (`Contains`, `Intersects`)
against the sub-assembly bounding box together with its connectivity.
`save_layout` (lines 513-522) calls every removal with
`containing := not intersecting` and `remove_all := not include_flag`. -/

def pyDedup (acc : List String) : List String → List String
  | [] => acc
  | x :: xs => pyDedup (if acc.contains x then acc else acc ++ [x]) xs

def get_nets_from_footprints (padNets : List (List String)) : List String :=
  pyDedup [] padNets.flatten

def get_local_nets (srcPadNets otherPadNets : List (List String)) : List String :=
  (get_nets_from_footprints srcPadNets).filter
    (fun n => ! (get_nets_from_footprints otherPadNets).contains n)

structure EItem where
  contained : Bool
  intersecting : Bool
  connected : Bool
  net : String
deriving DecidableEq

def remove_tracks (localNets : List String) (containing removeAll : Bool)
    (ts : List EItem) : List EItem :=
  ts.filter (fun t =>
    if removeAll then true
    else if containing then
      if ! t.contained then ! localNets.contains t.net else false
    else
      if ! t.intersecting then ! localNets.contains t.net else false)

def remove_zones (localNets : List String) (containing removeAll : Bool)
    (zs : List EItem) : List EItem :=
  zs.filter (fun z =>
    if removeAll then true
    else if containing then
      if ! z.contained then ! localNets.contains z.net else false
    else
      if ! z.intersecting then ! localNets.contains z.net else false)

def remove_drawings (localNets : List String) (containing removeAll : Bool)
    (ds : List EItem) : List EItem :=
  ds.filter (fun d =>
    if removeAll then true
    else if containing then
      if ! d.contained then (if d.connected then ! localNets.contains d.net else false)
      else false
    else
      if ! d.intersecting then (if d.connected then ! localNets.contains d.net else false)
      else false)

structure SaveArgs where
  tracks : Bool
  zones : Bool
  text : Bool
  drawings : Bool
  intersecting : Bool
deriving DecidableEq

def save_layout_track_deletions (srcPadNets otherPadNets : List (List String))
    (args : SaveArgs) (ts : List EItem) : List EItem :=
  remove_tracks (get_local_nets srcPadNets otherPadNets)
    (! args.intersecting) (! args.tracks) ts

def save_layout_zone_deletions (srcPadNets otherPadNets : List (List String))
    (args : SaveArgs) (zs : List EItem) : List EItem :=
  remove_zones (get_local_nets srcPadNets otherPadNets)
    (! args.intersecting) (! args.zones) zs

def save_layout_drawing_deletions (srcPadNets otherPadNets : List (List String))
    (args : SaveArgs) (ds : List EItem) : List EItem :=
  remove_drawings (get_local_nets srcPadNets otherPadNets)
    (! args.intersecting) (! args.drawings) ds

theorem remove_tracks_keeps_local (localNets : List String) (containing : Bool)
    (ts : List EItem) (x : EItem) (hx : localNets.contains x.net = true) :
    x ∉ remove_tracks localNets containing false ts := by
  intro hmem
  have hp := (List.mem_filter.mp hmem).2
  simp only [Bool.false_eq_true, if_false] at hp
  split at hp <;> split at hp <;> simp_all

theorem remove_zones_keeps_local (localNets : List String) (containing : Bool)
    (zs : List EItem) (x : EItem) (hx : localNets.contains x.net = true) :
    x ∉ remove_zones localNets containing false zs := by
  intro hmem
  have hp := (List.mem_filter.mp hmem).2
  simp only [Bool.false_eq_true, if_false] at hp
  split at hp <;> split at hp <;> simp_all

theorem remove_drawings_keeps_local (localNets : List String) (containing : Bool)
    (ds : List EItem) (x : EItem) (hx : localNets.contains x.net = true) :
    x ∉ remove_drawings localNets containing false ds := by
  intro hmem
  have hp := (List.mem_filter.mp hmem).2
  simp only [Bool.false_eq_true, if_false] at hp
  split at hp <;> split at hp <;> simp_all

/-- Claim C8 counterexample: when the tracks include flag is unset,
`save_layout` calls `remove_tracks` with `remove_all = True`, whose branch
removes every track with no net check — so a track on the purely local net
"N", lying entirely outside the bounding rectangle, is removed from the
saved fragment, refuting "never removed ... with any combination of include
flags". -/
theorem local_net_track_removed_when_flag_unset :
    get_local_nets [["N"]] [] = ["N"] ∧
    save_layout_track_deletions [["N"]] [] ⟨false, true, true, true, false⟩
        [⟨false, false, true, "N"⟩] = [⟨false, false, true, "N"⟩] := by
  constructor
  · rfl
  · rfl

/-- Claim C8 amended: whenever the corresponding include flag is set (so the
removal runs with `remove_all = False`), a track, zone, or drawing whose net
is in the local-nets set is never removed, in either classification mode,
even when its geometry lies entirely outside the bounding rectangle; with
the include flag unset, every element of that kind is removed regardless of
its net. -/
theorem local_net_elements_kept_when_flag_set (srcPadNets otherPadNets : List (List String))
    (args : SaveArgs) (x : EItem)
    (hx : (get_local_nets srcPadNets otherPadNets).contains x.net = true) :
    (args.tracks = true →
      ∀ ts, x ∉ save_layout_track_deletions srcPadNets otherPadNets args ts) ∧
    (args.zones = true →
      ∀ zs, x ∉ save_layout_zone_deletions srcPadNets otherPadNets args zs) ∧
    (args.drawings = true →
      ∀ ds, x ∉ save_layout_drawing_deletions srcPadNets otherPadNets args ds) := by
  refine ⟨fun ht ts => ?_, fun hz zs => ?_, fun hd ds => ?_⟩
  · unfold save_layout_track_deletions
    rw [ht]
    exact remove_tracks_keeps_local _ _ ts x hx
  · unfold save_layout_zone_deletions
    rw [hz]
    exact remove_zones_keeps_local _ _ zs x hx
  · unfold save_layout_drawing_deletions
    rw [hd]
    exact remove_drawings_keeps_local _ _ ds x hx

/-- Witness for the amended C8 theorem: with every include flag set, the
local-net track outside the bounding rectangle is kept. -/
theorem local_net_elements_kept_when_flag_set_witness :
    (get_local_nets [["N"]] []).contains "N" = true ∧
    ⟨false, false, true, "N"⟩ ∉
      save_layout_track_deletions [["N"]] [] ⟨true, true, true, true, false⟩
        [⟨false, false, true, "N"⟩] :=
  ⟨by decide,
    (local_net_elements_kept_when_flag_set [["N"]] [] ⟨true, true, true, true, false⟩
      ⟨false, false, true, "N"⟩ (by decide)).1 rfl [⟨false, false, true, "N"⟩]⟩

/-! ## Correspondence scoring and tie-breaking

Three sites resolve a many-candidate identity match:
anchor resolution (restore_layout, lines 924-934), footprint replication
(replicate_footprints, lines 1083-1097) and net-pair construction
(get_net_pairs, lines 983-988).  The first two score a candidate by
iterating over the query footprint's sheet_id chain and counting — with
multiplicity — the items present in the candidate's chain (`codeScore`);
the net-pair site scores by genuine set-intersection size (`setScore`).
All three take the first candidate attaining the maximum score: Python's
`max(..., key=...)` and `list.index(max(list))` both return the first
maximum, embedded as `firstArgmax`. -/

def codeScore (query cand : List String) : Nat :=
  (query.filter (fun t => cand.contains t)).length

/-- Modelled from the spec: "score each candidate by the size of the
set-intersection between the candidate's ancestor-chain tokens and the
destination element's ancestor-chain tokens".  This is also the literal
embedding of the `len(set(fp[2]) & set(...))` score of the net-pair site. -/
def setScore (a b : List String) : Nat :=
  (a.dedup.filter (fun t => b.contains t)).length

def firstArgmaxAux : List Nat → Nat → Nat → Nat → Nat
  | [], _, bi, _ => bi
  | x :: xs, i, bi, bv =>
    if x > bv then firstArgmaxAux xs (i + 1) i x
    else firstArgmaxAux xs (i + 1) bi bv

def firstArgmax : List Nat → Nat
  | [] => 0
  | x :: xs => firstArgmaxAux xs 1 0 x

def selectCode (query : List String) (cands : List (List String)) : Nat :=
  firstArgmax (cands.map (fun c => codeScore query c))

/-- Modelled from the spec: select the maximum set-intersection-scoring
candidate, ties resolving to the first candidate encountered. -/
def selectSpec (query : List String) (cands : List (List String)) : Nat :=
  firstArgmax (cands.map (fun c => setScore query c))


def argmaxFirstRec : List Nat → Nat
  | [] => 0
  | x :: xs => if ∀ y ∈ xs, y ≤ x then 0 else argmaxFirstRec xs + 1

theorem firstArgmaxAux_eq (xs : List Nat) : ∀ i bi bv,
    firstArgmaxAux xs i bi bv =
      if ∀ y ∈ xs, y ≤ bv then bi else i + argmaxFirstRec xs := by
  induction xs with
  | nil =>
    intro i bi bv
    rw [if_pos (by intro y hy; simp at hy)]
    rfl
  | cons x xs ih =>
    intro i bi bv
    by_cases hx : x > bv
    · have h1 : firstArgmaxAux (x :: xs) i bi bv = firstArgmaxAux xs (i + 1) i x := by
        simp only [firstArgmaxAux, if_pos hx]
      rw [h1, ih (i + 1) i x]
      have hcond : ¬ ∀ y ∈ x :: xs, y ≤ bv := by
        intro h
        exact absurd (h x (List.mem_cons_self x xs)) (not_le.mpr hx)
      rw [if_neg hcond]
      by_cases hall : ∀ y ∈ xs, y ≤ x
      · rw [if_pos hall]
        have h2 : argmaxFirstRec (x :: xs) = 0 := by
          simp only [argmaxFirstRec, if_pos hall]
        rw [h2]
        omega
      · rw [if_neg hall]
        have h2 : argmaxFirstRec (x :: xs) = argmaxFirstRec xs + 1 := by
          simp only [argmaxFirstRec, if_neg hall]
        rw [h2]
        omega
    · have hxbv : x ≤ bv := not_lt.mp hx
      have h1 : firstArgmaxAux (x :: xs) i bi bv = firstArgmaxAux xs (i + 1) bi bv := by
        simp only [firstArgmaxAux, if_neg hx]
      rw [h1, ih (i + 1) bi bv]
      by_cases hall : ∀ y ∈ xs, y ≤ bv
      · rw [if_pos hall, if_pos ?_]
        intro y hy
        rcases List.mem_cons.mp hy with h' | h'
        · subst h'; exact hxbv
        · exact hall y h'
      · have hcons : ¬ ∀ y ∈ x :: xs, y ≤ bv := by
          intro h
          exact hall (fun y hy => h y (List.mem_cons_of_mem x hy))
        rw [if_neg hall, if_neg hcons]
        have hallx : ¬ ∀ y ∈ xs, y ≤ x := by
          intro h
          exact hall (fun y hy => le_trans (h y hy) hxbv)
        have h2 : argmaxFirstRec (x :: xs) = argmaxFirstRec xs + 1 := by
          simp only [argmaxFirstRec, if_neg hallx]
        rw [h2]
        omega

theorem firstArgmax_eq_rec (l : List Nat) : firstArgmax l = argmaxFirstRec l := by
  cases l with
  | nil => rfl
  | cons x xs =>
    have h1 : firstArgmax (x :: xs) = firstArgmaxAux xs 1 0 x := rfl
    rw [h1, firstArgmaxAux_eq xs 1 0 x]
    by_cases hall : ∀ y ∈ xs, y ≤ x
    · rw [if_pos hall]
      simp only [argmaxFirstRec, if_pos hall]
    · rw [if_neg hall]
      simp only [argmaxFirstRec, if_neg hall]
      omega

theorem argmaxFirstRec_lt_length (l : List Nat) (h : l ≠ []) :
    argmaxFirstRec l < l.length := by
  induction l with
  | nil => exact absurd rfl h
  | cons x xs ih =>
    simp only [argmaxFirstRec]
    by_cases hall : ∀ y ∈ xs, y ≤ x
    · rw [if_pos hall]
      simp
    · rw [if_neg hall]
      have hxs : xs ≠ [] := by
        intro hnil
        subst hnil
        exact hall (by intro y hy; simp at hy)
      have := ih hxs
      simp only [List.length_cons]
      omega

theorem argmaxFirstRec_ge (l : List Nat) :
    ∀ j, j < l.length → l.getD j 0 ≤ l.getD (argmaxFirstRec l) 0 := by
  induction l with
  | nil => intro j hj; simp at hj
  | cons x xs ih =>
    intro j hj
    simp only [argmaxFirstRec]
    by_cases hall : ∀ y ∈ xs, y ≤ x
    · rw [if_pos hall]
      cases j with
      | zero => simp
      | succ j' =>
        simp only [List.getD_cons_succ, List.getD_cons_zero]
        have hj' : j' < xs.length := by simpa using hj
        have hmem : xs.getD j' 0 ∈ xs := by
          rw [List.getD_eq_getElem xs 0 hj']
          exact List.getElem_mem hj'
        exact hall _ hmem
    · rw [if_neg hall]
      push_neg at hall
      obtain ⟨y, hy, hxy⟩ := hall
      obtain ⟨k, hk, hky⟩ := List.mem_iff_getElem.mp hy
      have hyk : xs.getD k 0 = y := by
        rw [List.getD_eq_getElem xs 0 hk, hky]
      have hymax : y ≤ xs.getD (argmaxFirstRec xs) 0 := by
        rw [← hyk]
        exact ih k hk
      cases j with
      | zero =>
        simp only [List.getD_cons_zero, List.getD_cons_succ]
        exact le_trans (le_of_lt hxy) hymax
      | succ j' =>
        simp only [List.getD_cons_succ]
        have hj' : j' < xs.length := by simpa using hj
        exact ih j' hj'

theorem argmaxFirstRec_first (l : List Nat) :
    ∀ j, j < argmaxFirstRec l → l.getD j 0 < l.getD (argmaxFirstRec l) 0 := by
  induction l with
  | nil => intro j hj; simp [argmaxFirstRec] at hj
  | cons x xs ih =>
    intro j hj
    simp only [argmaxFirstRec] at hj ⊢
    by_cases hall : ∀ y ∈ xs, y ≤ x
    · rw [if_pos hall] at hj
      exact absurd hj (Nat.not_lt_zero j)
    · rw [if_neg hall] at hj ⊢
      have hallc := hall
      push_neg at hallc
      obtain ⟨y, hy, hxy⟩ := hallc
      obtain ⟨k, hk, hky⟩ := List.mem_iff_getElem.mp hy
      have hyk : xs.getD k 0 = y := by
        rw [List.getD_eq_getElem xs 0 hk, hky]
      have hymax : y ≤ xs.getD (argmaxFirstRec xs) 0 := by
        rw [← hyk]
        exact argmaxFirstRec_ge xs k hk
      cases j with
      | zero =>
        simp only [List.getD_cons_zero, List.getD_cons_succ]
        exact lt_of_lt_of_le hxy hymax
      | succ j' =>
        simp only [List.getD_cons_succ]
        exact ih j' (by omega)

theorem codeScore_eq_setScore (q c : List String) (hq : q.Nodup) :
    codeScore q c = setScore q c := by
  unfold codeScore setScore
  rw [List.dedup_eq_self.mpr hq]

/-! ## Footprints, matching and the restore pipeline
(RestoreLayout.restore_layout, lines 804-954; get_net_pairs matching phase,
lines 956-997; replicate_footprints, lines 1054-1204)

A footprint namedtuple is embedded as `EFP` (static identity data from the
schematic hierarchy plus the count of its text items, i.e. the length of
`get_footprint_text_items`); its mutable board state (the live pcbnew
object) is a `Pose`, with the four local-settings copies collapsed into one
`settings` field.  The destination board is the list of poses of the
footprints to place, indexed in step with the `EFP` list `dstOrig`.  The
geometric transform (lines 1105-1115 and 1140-1151), which goes through
floating-point trigonometry in the external collaborator, is abstracted
into the `XformParams` functions; the guard structure around them is the
translated code.  Footprint lists are given in the iteration order the code
produces after its sort on (fp_id, sheet_id) (lines 896-897); the hash
strings stand for the md5 hex digests that get_sch_hash produces over the
saved and destination file chains. -/

structure EFP where
  ref : String
  fp_id : Option String
  sheet_id : List String
  filename : List String
  textItems : Nat
deriving DecidableEq

def defEFP : EFP := ⟨"", none, [], [], 0⟩

structure Pose where
  pos : Int × Int
  rot : Int
  flipped : Bool
  settings : Int
deriving DecidableEq

def defPose : Pose := ⟨(0, 0), 0, false, 0⟩

structure XformParams where
  pose1 : Pose → Pose → Pose → (Int × Int) × Int
  pose2 : Pose → Pose → Pose → (Int × Int) × Int
  flipOp : (Int × Int) → Pose → Pose

def modifyIdx : List Pose → Nat → (Pose → Pose) → List Pose
  | [], _, _ => []
  | p :: ps, 0, f => f p :: ps
  | p :: ps, n + 1, f => p :: modifyIdx ps n f

def dstCands (srcFp : EFP) (dstOrig : List EFP) : List (Nat × EFP) :=
  dstOrig.enum.filter (fun x => x.2.fp_id == srcFp.fp_id)

def matchDst (srcFp : EFP) (dstOrig : List EFP) : Except String Nat :=
  match dstCands srcFp dstOrig with
  | [] => .error "NoDstMatchError"
  | [c] => .ok c.1
  | cs =>
    .ok ((cs.map (fun c => c.1)).getD
      (selectCode srcFp.sheet_id (cs.map (fun c => c.2.sheet_id))) 0)


def step1 (P : XformParams) (srcAnchor : EFP × Pose) (aPose0 : Pose)
    (src : EFP × Pose) (p : Pose) : Pose :=
  let np := P.pose1 srcAnchor.2 aPose0 src.2
  let p1 := { p with pos := np.1 }
  let p2 := if p1.flipped ≠ src.2.flipped then P.flipOp p1.pos p1 else p1
  { p2 with rot := np.2 }

def stepSettings (src : EFP × Pose) (p : Pose) : Pose :=
  { p with settings := src.2.settings }

def step2 (P : XformParams) (srcAnchor : EFP × Pose) (aPose0 : Pose)
    (src : EFP × Pose) (p : Pose) : Pose :=
  let pf := P.flipOp aPose0.pos p
  let np := P.pose2 srcAnchor.2 aPose0 src.2
  { pf with pos := np.1, rot := np.2 }

def stateAfterMove (P : XformParams) (srcAnchor : EFP × Pose) (dstAnchor : EFP)
    (aPose0 : Pose) (dstOrig : List EFP) (st : List Pose) (src : EFP × Pose)
    (i : Nat) : List Pose :=
  if (dstOrig.getD i defEFP).ref ≠ dstAnchor.ref then
    modifyIdx st i (step1 P srcAnchor aPose0 src)
  else st

def stateAfterSettings (P : XformParams) (srcAnchor : EFP × Pose) (dstAnchor : EFP)
    (aPose0 : Pose) (dstOrig : List EFP) (st : List Pose) (src : EFP × Pose)
    (i : Nat) : List Pose :=
  modifyIdx (stateAfterMove P srcAnchor dstAnchor aPose0 dstOrig st src i) i
    (stepSettings src)

def stateAfterMirror (P : XformParams) (srcAnchor : EFP × Pose) (dstAnchor : EFP)
    (aIdx : Nat) (aPose0 : Pose) (dstOrig : List EFP) (st : List Pose)
    (src : EFP × Pose) (i : Nat) : List Pose :=
  if srcAnchor.2.flipped ≠
      ((stateAfterSettings P srcAnchor dstAnchor aPose0 dstOrig st src i).getD
        aIdx defPose).flipped then
    if dstOrig.getD i defEFP ≠ dstAnchor then
      modifyIdx (stateAfterSettings P srcAnchor dstAnchor aPose0 dstOrig st src i) i
        (step2 P srcAnchor aPose0 src)
    else stateAfterSettings P srcAnchor dstAnchor aPose0 dstOrig st src i
  else stateAfterSettings P srcAnchor dstAnchor aPose0 dstOrig st src i

def replicateStep (P : XformParams) (srcAnchor : EFP × Pose) (dstAnchor : EFP)
    (aIdx : Nat) (aPose0 : Pose) (dstOrig : List EFP)
    (st : List Pose) (src : EFP × Pose) : Except (String × List Pose) (List Pose) :=
  match matchDst src.1 dstOrig with
  | .error e => .error (e, st)
  | .ok i =>
    if src.1.textItems ≠ (dstOrig.getD i defEFP).textItems then
      .error ("TextCountError",
        stateAfterMirror P srcAnchor dstAnchor aIdx aPose0 dstOrig st src i)
    else .ok (stateAfterMirror P srcAnchor dstAnchor aIdx aPose0 dstOrig st src i)

def repFold (P : XformParams) (srcAnchor : EFP × Pose) (dstAnchor : EFP)
    (aIdx : Nat) (aPose0 : Pose) (dstOrig : List EFP) :
    List (EFP × Pose) → List Pose → Except (String × List Pose) (List Pose)
  | [], st => .ok st
  | f :: fs, st =>
    match replicateStep P srcAnchor dstAnchor aIdx aPose0 dstOrig st f with
    | .error e => .error e
    | .ok st' => repFold P srcAnchor dstAnchor aIdx aPose0 dstOrig fs st'

def replicate_footprints (P : XformParams) (srcAnchor : EFP × Pose) (dstAnchor : EFP)
    (aIdx : Nat) (srcFps : List (EFP × Pose)) (dstOrig : List EFP)
    (state0 : List Pose) : Except (String × List Pose) (List Pose) :=
  repFold P srcAnchor dstAnchor aIdx (state0.getD aIdx defPose) dstOrig srcFps state0

def select_src_anchor (dstAnchor : EFP) (savedFps : List (EFP × Pose)) :
    Except String (EFP × Pose) :=
  let cands := savedFps.filter (fun f => f.1.fp_id == dstAnchor.fp_id)
  match cands with
  | [] => .error "ValueError"
  | [c] => .ok c
  | _ =>
    .ok (cands.getD
      (selectCode dstAnchor.sheet_id (cands.map (fun c => c.1.sheet_id)))
      (defEFP, defPose))

def netPairMatch (dstFps : List EFP) (s : EFP) : Except String Nat :=
  let cands := dstFps.enum.filter (fun x => x.2.fp_id == s.fp_id)
  match cands with
  | [] => .error "NetPairUnmatchedError"
  | [c] => .ok c.1
  | _ =>
    .ok ((cands.map (fun c => c.1)).getD
      (firstArgmax (cands.map (fun c => setScore s.sheet_id c.2.sheet_id))) 0)

def get_net_pairs_matching (savedFps : List (EFP × Pose)) (dstFps : List EFP) :
    Except String (List Nat) :=
  savedFps.mapM (fun f => netPairMatch dstFps f.1)

def restore_layout (P : XformParams) (engineVer savedVer : List Nat)
    (savedLayerCount dstLayerCount : Nat) (savedLevel : String)
    (savedHash dstHash : String) (dstAnchor : EFP) (aIdx : Nat)
    (savedFps : List (EFP × Pose)) (dstFps : List EFP) (state0 : List Pose) :
    Except (String × List Pose) (List Pose) :=
  if semver_compare engineVer savedVer = false then
    .error ("FormatVersionError", state0)
  else if savedLayerCount < dstLayerCount then
    .error ("LayerCountError", state0)
  else if ¬ dstAnchor.filename.contains savedLevel then
    .error ("HierarchyMismatchError", state0)
  else if savedHash ≠ dstHash then
    .error ("ContentDriftError", state0)
  else if dstFps.length ≠ savedFps.length then
    .error ("FootprintCountError", state0)
  else
    match get_net_pairs_matching savedFps dstFps with
    | .error e => .error (e, state0)
    | .ok _ =>
      match select_src_anchor dstAnchor savedFps with
      | .error e => .error (e, state0)
      | .ok srcAnchor =>
        replicate_footprints P srcAnchor dstAnchor aIdx savedFps dstFps state0

/-- Claim C3 counterexample: destination anchor chain ["X","X","X","Y","Z"]
(a nested hierarchy can repeat a sheet name), candidate SA with chain
["Y","Z"] (set-intersection size 2) enumerated before candidate SB with
chain ["X"] (set-intersection size 1).  The claim's rule — maximum
set-intersection, first on ties — selects SA (index 0), but the code's
multiplicity count scores SB at 3 and the anchor resolver picks SB. -/
theorem anchor_choice_differs_from_set_intersection_rule :
    select_src_anchor ⟨"D", some "x", ["X", "X", "X", "Y", "Z"], [], 2⟩
        [(⟨"SA", some "x", ["Y", "Z"], [], 2⟩, defPose),
          (⟨"SB", some "x", ["X"], [], 2⟩, defPose)] =
      .ok (⟨"SB", some "x", ["X"], [], 2⟩, defPose) ∧
    selectSpec ["X", "X", "X", "Y", "Z"] [["Y", "Z"], ["X"]] = 0 ∧
    setScore ["X", "X", "X", "Y", "Z"] ["Y", "Z"] = 2 ∧
    setScore ["X", "X", "X", "Y", "Z"] ["X"] = 1 := by
  refine ⟨by rfl, by decide, by decide, by decide⟩

/-- Claim C3 amended: at the anchor-resolution and footprint-replication
sites the score counts the query chain's tokens with multiplicity, which
equals the set-intersection size exactly when the query chain has no
duplicate tokens — under that proviso the code's selection agrees with the
spec's set-intersection rule; at all three sites (the net-pair site scores
by set-intersection as claimed) the selected candidate attains the maximum
score and every earlier candidate scores strictly less, i.e. ties resolve
to the first candidate in enumeration order. -/
theorem resolver_selection_amended (q : List String) (cands : List (List String))
    (hq : q.Nodup) :
    selectCode q cands = selectSpec q cands ∧
    (cands ≠ [] →
      selectSpec q cands < cands.length ∧
      (∀ j, j < cands.length →
        (cands.map (fun c => setScore q c)).getD j 0 ≤
          (cands.map (fun c => setScore q c)).getD (selectSpec q cands) 0) ∧
      (∀ j, j < selectSpec q cands →
        (cands.map (fun c => setScore q c)).getD j 0 <
          (cands.map (fun c => setScore q c)).getD (selectSpec q cands) 0)) := by
  have hfun : (fun c => codeScore q c) = (fun c => setScore q c) := by
    funext c
    exact codeScore_eq_setScore q c hq
  constructor
  · unfold selectCode selectSpec
    rw [hfun]
  · intro hne
    have hsel : selectSpec q cands =
        argmaxFirstRec (cands.map (fun c => setScore q c)) := by
      unfold selectSpec
      exact firstArgmax_eq_rec _
    have hlen : (cands.map (fun c => setScore q c)).length = cands.length :=
      List.length_map _ _
    have hnemap : cands.map (fun c => setScore q c) ≠ [] := by
      intro hcon
      exact hne (List.map_eq_nil_iff.mp hcon)
    refine ⟨?_, ?_, ?_⟩
    · rw [hsel, ← hlen]
      exact argmaxFirstRec_lt_length _ hnemap
    · intro j hj
      rw [hsel]
      exact argmaxFirstRec_ge _ j (by rw [hlen]; exact hj)
    · intro j hj
      rw [hsel]
      exact argmaxFirstRec_first _ j (by rw [← hsel]; exact hj)

/-- Witness for the amended C3 theorem: a duplicate-free query chain with a
genuine tie between two candidates — the first is selected. -/
theorem resolver_selection_amended_witness :
    selectCode ["X"] [["X"], ["X", "Y"]] = selectSpec ["X"] [["X"], ["X", "Y"]] ∧
    selectSpec ["X"] [["X"], ["X", "Y"]] < 2 := by
  have h := resolver_selection_amended ["X"] [["X"], ["X", "Y"]] (by decide)
  refine ⟨h.1, ?_⟩
  have h2 := (h.2 (by decide)).1
  simpa using h2

/-- Claim C1 (evidence for the code bug): the layer gate's comparison is
inverted.  With the saved snapshot recording 2 copper layers and the
destination board having 4 — destination at least as many as saved, so the
claim (and the code's own error message "Target board has less layers than
layers saved") requires the check to pass — restore raises the layer-count
error; with saved 4 and destination 2 — destination strictly fewer, the
claim requires the error — restore sails past the layer gate and fails only
at the later level-membership check. -/
theorem restore_layer_check_divergence :
    restore_layout ⟨fun _ _ _ => ((0, 0), 0), fun _ _ _ => ((0, 0), 0), fun _ p => p⟩
        [1] [1] 2 4 "s" "h" "h" ⟨"A", some "a", [], ["s"], 2⟩ 0 [] [] [] =
      .error ("LayerCountError", []) ∧
    restore_layout ⟨fun _ _ _ => ((0, 0), 0), fun _ _ _ => ((0, 0), 0), fun _ p => p⟩
        [1] [1] 4 2 "t" "h" "h" ⟨"A", some "a", [], ["s"], 2⟩ 0 [] [] [] =
      .error ("HierarchyMismatchError", []) := by
  constructor
  · rfl
  · rfl

def ceParams : XformParams :=
  ⟨fun _ _ _ => ((100, 100), 0), fun _ _ _ => ((0, 0), 0), fun _ p => p⟩

def ceAnchorE : EFP := ⟨"A", some "a", [], ["s"], 2⟩

def ceOtherE : EFP := ⟨"B", some "b", [], ["s"], 2⟩

def ceSrcGood : EFP × Pose := (⟨"SB", some "b", [], ["s"], 2⟩, defPose)

def ceSrcBad : EFP × Pose := (⟨"SA", some "a", [], ["s"], 3⟩, defPose)

/-- Claim C2 counterexample: every pre-replication gate passes, the first
footprint pair replicates — moving destination footprint B to (100, 100) —
and only then does the per-pair cardinality check find that the saved
anchor has 3 text items against the destination anchor's 2 and raise; the
board carried by the error already differs from its pre-call state. -/
theorem restore_mutates_before_text_count_error :
    restore_layout ceParams [1] [1] 2 2 "s" "h" "h" ceAnchorE 0
        [ceSrcGood, ceSrcBad] [ceAnchorE, ceOtherE] [defPose, defPose] =
      .error ("TextCountError", [defPose, ⟨(100, 100), 0, false, 0⟩]) ∧
    [defPose, (⟨(100, 100), 0, false, 0⟩ : Pose)] ≠ [defPose, defPose] := by
  constructor
  · rfl
  · decide

theorem matchDst_error_label (s : EFP) (d : List EFP) (e : String)
    (h : matchDst s d = .error e) : e = "NoDstMatchError" := by
  unfold matchDst at h
  cases hc : dstCands s d with
  | nil =>
    rw [hc] at h
    injection h with h1
    exact h1.symm
  | cons c cs =>
    cases cs with
    | nil =>
      rw [hc] at h
      exact Except.noConfusion h
    | cons c2 cs2 =>
      rw [hc] at h
      exact Except.noConfusion h

theorem replicateStep_error_label (P : XformParams) (srcAnchor : EFP × Pose)
    (dstAnchor : EFP) (aIdx : Nat) (aPose0 : Pose) (dstOrig : List EFP)
    (st : List Pose) (src : EFP × Pose) (e : String) (S : List Pose)
    (h : replicateStep P srcAnchor dstAnchor aIdx aPose0 dstOrig st src =
      .error (e, S)) :
    e = "NoDstMatchError" ∨ e = "TextCountError" := by
  unfold replicateStep at h
  cases hm : matchDst src.1 dstOrig with
  | error e' =>
    rw [hm] at h
    simp only [Except.error.injEq, Prod.mk.injEq] at h
    refine Or.inl ?_
    rw [← h.1]
    exact matchDst_error_label src.1 dstOrig e' hm
  | ok i =>
    rw [hm] at h
    dsimp only at h
    by_cases ht : src.1.textItems ≠ (dstOrig.getD i defEFP).textItems
    · rw [if_pos ht] at h
      simp only [Except.error.injEq, Prod.mk.injEq] at h
      exact Or.inr h.1.symm
    · rw [if_neg ht] at h
      exact Except.noConfusion h

theorem repFold_error_label (P : XformParams) (srcAnchor : EFP × Pose)
    (dstAnchor : EFP) (aIdx : Nat) (aPose0 : Pose) (dstOrig : List EFP)
    (fs : List (EFP × Pose)) :
    ∀ (st : List Pose) (e : String) (S : List Pose),
      repFold P srcAnchor dstAnchor aIdx aPose0 dstOrig fs st = .error (e, S) →
      e = "NoDstMatchError" ∨ e = "TextCountError" := by
  induction fs with
  | nil =>
    intro st e S h
    exact Except.noConfusion h
  | cons f fs ih =>
    intro st e S h
    unfold repFold at h
    cases hs : replicateStep P srcAnchor dstAnchor aIdx aPose0 dstOrig st f with
    | error p =>
      rw [hs] at h
      have hp : p = (e, S) := by
        simpa using h
      rw [hp] at hs
      exact replicateStep_error_label P srcAnchor dstAnchor aIdx aPose0 dstOrig
        st f e S hs
    | ok st' =>
      rw [hs] at h
      exact ih st' e S h

/-- Claim C2 amended: every fatal error raised before footprint replication
— version-too-new, layer-count, level-not-found, fingerprint-mismatch,
footprint-count-mismatch, the unmatched-footprint error of net-pair
construction, and the empty-anchor-candidate crash — surfaces with the
destination board exactly in its pre-call state; but the two errors raised
inside the replication loop (unmatched destination footprint, and the
per-pair text-item-count cardinality error) surface only after earlier
matched pairs — and the current pair — have already been repositioned and
had their local settings overwritten, as the counterexample shows. -/
theorem restore_prereplication_errors_leave_board_unchanged
    (P : XformParams) (engineVer savedVer : List Nat)
    (savedLayerCount dstLayerCount : Nat) (savedLevel savedHash dstHash : String)
    (dstAnchor : EFP) (aIdx : Nat) (savedFps : List (EFP × Pose))
    (dstFps : List EFP) (state0 : List Pose) (e : String) (S : List Pose)
    (herr : restore_layout P engineVer savedVer savedLayerCount dstLayerCount
        savedLevel savedHash dstHash dstAnchor aIdx savedFps dstFps state0 =
      .error (e, S))
    (hnotrep : e ≠ "NoDstMatchError" ∧ e ≠ "TextCountError") :
    S = state0 := by
  unfold restore_layout at herr
  split at herr
  · simp only [Except.error.injEq, Prod.mk.injEq] at herr
    exact herr.2.symm
  · split at herr
    · simp only [Except.error.injEq, Prod.mk.injEq] at herr
      exact herr.2.symm
    · split at herr
      · simp only [Except.error.injEq, Prod.mk.injEq] at herr
        exact herr.2.symm
      · split at herr
        · simp only [Except.error.injEq, Prod.mk.injEq] at herr
          exact herr.2.symm
        · split at herr
          · simp only [Except.error.injEq, Prod.mk.injEq] at herr
            exact herr.2.symm
          · cases hnp : get_net_pairs_matching savedFps dstFps with
            | error e' =>
              rw [hnp] at herr
              simp only [Except.error.injEq, Prod.mk.injEq] at herr
              exact herr.2.symm
            | ok pairs =>
              rw [hnp] at herr
              cases hsa : select_src_anchor dstAnchor savedFps with
              | error e' =>
                rw [hsa] at herr
                simp only [Except.error.injEq, Prod.mk.injEq] at herr
                exact herr.2.symm
              | ok srcAnchor =>
                rw [hsa] at herr
                unfold replicate_footprints at herr
                have := repFold_error_label P srcAnchor dstAnchor aIdx
                  (state0.getD aIdx defPose) dstFps savedFps state0 e S herr
                rcases this with h | h
                · exact absurd h hnotrep.1
                · exact absurd h hnotrep.2

/-- Witness for the amended C2 theorem: a fingerprint mismatch surfaces
with the board untouched. -/
theorem restore_prereplication_errors_leave_board_unchanged_witness :
    [(⟨(5, 5), 0, false, 0⟩ : Pose)] = [⟨(5, 5), 0, false, 0⟩] :=
  restore_prereplication_errors_leave_board_unchanged ceParams [1] [1] 2 2 "s" "h" "g"
    ceAnchorE 0 [] [] [⟨(5, 5), 0, false, 0⟩] "ContentDriftError"
    [⟨(5, 5), 0, false, 0⟩] (by rfl) ⟨by decide, by decide⟩

/-! ## Claim C9: the destination anchor footprint is never repositioned

`poseProj` extracts exactly the three fields the claim is about (position,
orientation, mirror flag) of the footprint at a given board index;
`resState` reads the board carried by either outcome of a replication. -/

def poseProj (st : List Pose) (i : Nat) : (Int × Int) × Int × Bool :=
  ((st.getD i defPose).pos, (st.getD i defPose).rot, (st.getD i defPose).flipped)

def resState : Except (String × List Pose) (List Pose) → List Pose
  | .error es => es.2
  | .ok S => S

theorem modifyIdx_getD_ne (l : List Pose) : ∀ (i j : Nat) (f : Pose → Pose), j ≠ i →
    (modifyIdx l i f).getD j defPose = l.getD j defPose := by
  induction l with
  | nil => intro i j f _; rfl
  | cons p ps ih =>
    intro i j f hne
    cases i with
    | zero =>
      cases j with
      | zero => exact absurd rfl hne
      | succ j' =>
        show (f p :: ps).getD (j' + 1) defPose = (p :: ps).getD (j' + 1) defPose
        rw [List.getD_cons_succ, List.getD_cons_succ]
    | succ i' =>
      cases j with
      | zero =>
        show (p :: modifyIdx ps i' f).getD 0 defPose = (p :: ps).getD 0 defPose
        rw [List.getD_cons_zero, List.getD_cons_zero]
      | succ j' =>
        show (p :: modifyIdx ps i' f).getD (j' + 1) defPose =
          (p :: ps).getD (j' + 1) defPose
        rw [List.getD_cons_succ, List.getD_cons_succ]
        exact ih i' j' f (by omega)

theorem modifyIdx_proj_preserved (l : List Pose) (f : Pose → Pose)
    (hf : ∀ p, (f p).pos = p.pos ∧ (f p).rot = p.rot ∧ (f p).flipped = p.flipped) :
    ∀ (i j : Nat), poseProj (modifyIdx l i f) j = poseProj l j := by
  induction l with
  | nil => intro i j; rfl
  | cons p ps ih =>
    intro i j
    cases i with
    | zero =>
      cases j with
      | zero =>
        show poseProj (f p :: ps) 0 = poseProj (p :: ps) 0
        unfold poseProj
        rw [List.getD_cons_zero, List.getD_cons_zero,
          (hf p).1, (hf p).2.1, (hf p).2.2]
      | succ j' =>
        show poseProj (f p :: ps) (j' + 1) = poseProj (p :: ps) (j' + 1)
        unfold poseProj
        rw [List.getD_cons_succ, List.getD_cons_succ]
    | succ i' =>
      cases j with
      | zero =>
        show poseProj (p :: modifyIdx ps i' f) 0 = poseProj (p :: ps) 0
        unfold poseProj
        rw [List.getD_cons_zero, List.getD_cons_zero]
      | succ j' =>
        show poseProj (p :: modifyIdx ps i' f) (j' + 1) = poseProj (p :: ps) (j' + 1)
        unfold poseProj
        rw [List.getD_cons_succ, List.getD_cons_succ]
        have h := ih i' j'
        unfold poseProj at h
        exact h

theorem stateAfterMove_proj (P : XformParams) (srcAnchor : EFP × Pose)
    (dstAnchor : EFP) (aIdx : Nat) (aPose0 : Pose) (dstOrig : List EFP)
    (st : List Pose) (src : EFP × Pose) (i : Nat)
    (hA : dstOrig.getD aIdx defEFP = dstAnchor) :
    poseProj (stateAfterMove P srcAnchor dstAnchor aPose0 dstOrig st src i) aIdx =
      poseProj st aIdx := by
  unfold stateAfterMove
  by_cases hi : i = aIdx
  · subst hi
    rw [hA, if_neg (fun hcon => hcon rfl)]
  · split
    · unfold poseProj
      rw [modifyIdx_getD_ne st i aIdx _ (fun hc => hi hc.symm)]
    · rfl

theorem stateAfterSettings_proj (P : XformParams) (srcAnchor : EFP × Pose)
    (dstAnchor : EFP) (aIdx : Nat) (aPose0 : Pose) (dstOrig : List EFP)
    (st : List Pose) (src : EFP × Pose) (i : Nat)
    (hA : dstOrig.getD aIdx defEFP = dstAnchor) :
    poseProj (stateAfterSettings P srcAnchor dstAnchor aPose0 dstOrig st src i) aIdx =
      poseProj st aIdx := by
  unfold stateAfterSettings
  rw [modifyIdx_proj_preserved _ (stepSettings src) (fun p => ⟨rfl, rfl, rfl⟩) i aIdx]
  exact stateAfterMove_proj P srcAnchor dstAnchor aIdx aPose0 dstOrig st src i hA

theorem stateAfterMirror_proj (P : XformParams) (srcAnchor : EFP × Pose)
    (dstAnchor : EFP) (aIdx : Nat) (aPose0 : Pose) (dstOrig : List EFP)
    (st : List Pose) (src : EFP × Pose) (i : Nat)
    (hA : dstOrig.getD aIdx defEFP = dstAnchor) :
    poseProj (stateAfterMirror P srcAnchor dstAnchor aIdx aPose0 dstOrig st src i) aIdx =
      poseProj st aIdx := by
  unfold stateAfterMirror
  split
  · split
    · rename_i hd
      have hi : i ≠ aIdx := by
        intro hc
        subst hc
        exact hd hA
      unfold poseProj
      rw [modifyIdx_getD_ne _ i aIdx _ (fun hc => hi hc.symm)]
      have h := stateAfterSettings_proj P srcAnchor dstAnchor aIdx aPose0 dstOrig
        st src i hA
      unfold poseProj at h
      exact h
    · exact stateAfterSettings_proj P srcAnchor dstAnchor aIdx aPose0 dstOrig
        st src i hA
  · exact stateAfterSettings_proj P srcAnchor dstAnchor aIdx aPose0 dstOrig
      st src i hA

theorem replicateStep_anchor_proj (P : XformParams) (srcAnchor : EFP × Pose)
    (dstAnchor : EFP) (aIdx : Nat) (aPose0 : Pose) (dstOrig : List EFP)
    (hA : dstOrig.getD aIdx defEFP = dstAnchor) (st : List Pose) (src : EFP × Pose) :
    poseProj (resState (replicateStep P srcAnchor dstAnchor aIdx aPose0 dstOrig st src))
        aIdx =
      poseProj st aIdx := by
  unfold replicateStep
  cases hm : matchDst src.1 dstOrig with
  | error e =>
    rfl
  | ok i =>
    dsimp only
    by_cases ht : src.1.textItems ≠ (dstOrig.getD i defEFP).textItems
    · rw [if_pos ht]
      exact stateAfterMirror_proj P srcAnchor dstAnchor aIdx aPose0 dstOrig st src i hA
    · rw [if_neg ht]
      exact stateAfterMirror_proj P srcAnchor dstAnchor aIdx aPose0 dstOrig st src i hA

theorem repFold_anchor_proj (P : XformParams) (srcAnchor : EFP × Pose)
    (dstAnchor : EFP) (aIdx : Nat) (aPose0 : Pose) (dstOrig : List EFP)
    (hA : dstOrig.getD aIdx defEFP = dstAnchor) :
    ∀ (fs : List (EFP × Pose)) (st : List Pose),
      poseProj (resState (repFold P srcAnchor dstAnchor aIdx aPose0 dstOrig fs st))
          aIdx =
        poseProj st aIdx := by
  intro fs
  induction fs with
  | nil => intro st; rfl
  | cons f fs ih =>
    intro st
    unfold repFold
    cases hs : replicateStep P srcAnchor dstAnchor aIdx aPose0 dstOrig st f with
    | error p =>
      dsimp only
      have h := replicateStep_anchor_proj P srcAnchor dstAnchor aIdx aPose0 dstOrig
        hA st f
      rw [hs] at h
      exact h
    | ok st' =>
      dsimp only
      rw [ih st']
      have h := replicateStep_anchor_proj P srcAnchor dstAnchor aIdx aPose0 dstOrig
        hA st f
      rw [hs] at h
      exact h

/-- Claim C9: restore_layout never changes the destination anchor
footprint's own position, orientation, or flip state — the non-mirrored
placement step is guarded by `dst_fp.ref != dst_anchor_fp.ref` and the
mirrored flip/re-rotate step by `dst_anchor_fp != dst_fp`, so after a
successful restore (and for arbitrary geometric transform parameters) the
anchor's position, rotation and mirror flag equal their pre-call values. -/
theorem restore_preserves_dst_anchor_pose (P : XformParams)
    (engineVer savedVer : List Nat) (savedLayerCount dstLayerCount : Nat)
    (savedLevel savedHash dstHash : String) (dstAnchor : EFP) (aIdx : Nat)
    (savedFps : List (EFP × Pose)) (dstFps : List EFP) (state0 : List Pose)
    (final : List Pose)
    (hA : dstFps.getD aIdx defEFP = dstAnchor)
    (hok : restore_layout P engineVer savedVer savedLayerCount dstLayerCount
        savedLevel savedHash dstHash dstAnchor aIdx savedFps dstFps state0 =
      .ok final) :
    (final.getD aIdx defPose).pos = (state0.getD aIdx defPose).pos ∧
    (final.getD aIdx defPose).rot = (state0.getD aIdx defPose).rot ∧
    (final.getD aIdx defPose).flipped = (state0.getD aIdx defPose).flipped := by
  unfold restore_layout at hok
  split at hok
  · exact Except.noConfusion hok
  · split at hok
    · exact Except.noConfusion hok
    · split at hok
      · exact Except.noConfusion hok
      · split at hok
        · exact Except.noConfusion hok
        · split at hok
          · exact Except.noConfusion hok
          · cases hnp : get_net_pairs_matching savedFps dstFps with
            | error e' =>
              rw [hnp] at hok
              exact Except.noConfusion hok
            | ok pairs =>
              rw [hnp] at hok
              cases hsa : select_src_anchor dstAnchor savedFps with
              | error e' =>
                rw [hsa] at hok
                exact Except.noConfusion hok
              | ok srcAnchor =>
                rw [hsa] at hok
                dsimp only at hok
                unfold replicate_footprints at hok
                have h := repFold_anchor_proj P srcAnchor dstAnchor aIdx
                  (state0.getD aIdx defPose) dstFps hA savedFps state0
                rw [hok] at h
                unfold poseProj at h
                simp only [Prod.mk.injEq] at h
                exact h

def c9SrcA : EFP × Pose := (⟨"SA", some "a", [], ["s"], 2⟩, defPose)

/-- Witness for C9: a concrete successful restore in which the non-anchor
footprint is moved to (100, 100) and the anchor's local settings are
overwritten, while the anchor's position (7, 8), rotation 9 and flip state
are untouched. -/
theorem restore_preserves_dst_anchor_pose_witness :
    (([(⟨(7, 8), 9, false, 0⟩ : Pose), ⟨(100, 100), 0, false, 0⟩].getD 0 defPose).pos =
      ([(⟨(7, 8), 9, false, 3⟩ : Pose), defPose].getD 0 defPose).pos) ∧
    (([(⟨(7, 8), 9, false, 0⟩ : Pose), ⟨(100, 100), 0, false, 0⟩].getD 0 defPose).rot =
      ([(⟨(7, 8), 9, false, 3⟩ : Pose), defPose].getD 0 defPose).rot) ∧
    (([(⟨(7, 8), 9, false, 0⟩ : Pose), ⟨(100, 100), 0, false, 0⟩].getD 0 defPose).flipped =
      ([(⟨(7, 8), 9, false, 3⟩ : Pose), defPose].getD 0 defPose).flipped) :=
  restore_preserves_dst_anchor_pose ceParams [1] [1] 2 2 "s" "h" "h" ceAnchorE 0
    [ceSrcGood, c9SrcA] [ceAnchorE, ceOtherE] [⟨(7, 8), 9, false, 3⟩, defPose]
    [⟨(7, 8), 9, false, 0⟩, ⟨(100, 100), 0, false, 0⟩] (by rfl) (by rfl)

/-! ## get_sch_hash (save_restore_layout.py, lines 63-118)

File contents are byte streams decoded to text, embedded as `List Char`.
The code (i) strips carriage returns, (ii) removes every line containing
the Reference-property marker, (iii) for each occurrence of the
"(instances" marker found by `find_all`, locates the matching closing
parenthesis with a counting scan (`scanEnd`; the scan's IndexError on
unbalanced input is modelled as `none`, and the scan is written with a
fuel argument equal to the maximal possible number of loop iterations so
that it stays structurally recursive), then concatenates the gaps between
blocks and finally appends `file[instance_end_old:-1]` — note the `-1`,
which drops the last character of the trailing segment; (iv) hashes each
non-blank line, sorts the per-line digests and folds them into the
incoming md5 state.  The md5 primitive itself is an external library: the
per-line hash and the state-update fold are parameters. -/

def stripCR (s : List Char) : List Char := s.filter (fun c => c ≠ '\r')

def refMarker : List Char := "(property \"Reference\"".toList

def removeRefLines (s : List Char) : List Char :=
  List.intercalate ['\n']
    ((s.splitOn '\n').filter (fun l => ! decide (refMarker <:+: l)))

def instMarker : List Char := "(instances".toList

def findAll (s pat : List Char) : List Nat :=
  (List.range s.length).filter (fun i => pat.isPrefixOf (s.drop i))

def scanEndFuel (s : List Char) : Nat → Nat → Nat → Option Nat
  | _, i, 0 => some i
  | 0, _, _ + 1 => none
  | fuel + 1, i, n + 1 =>
    if h : i < s.length then
      scanEndFuel s fuel (i + 1)
        (if s[i] = '(' then n + 2 else if s[i] = ')' then n else n + 1)
    else none

def scanEnd (s : List Char) (i n : Nat) : Option Nat :=
  scanEndFuel s (s.length - i) i n

def removeInstancesLoop (s : List Char) : List Nat → Nat → List Char → Option (List Char)
  | [], old, acc => some (acc ++ (s.drop old).take (s.length - 1 - old))
  | st :: rest, old, acc =>
    match scanEnd s (st + 1) 1 with
    | none => none
    | some e => removeInstancesLoop s rest e (acc ++ (s.drop old).take (st - old))

def codeFilteredCore (s : List Char) : Option (List Char) :=
  removeInstancesLoop s (findAll s instMarker) 0 []

def codeFiltered (content : List Char) : Option (List Char) :=
  codeFilteredCore (removeRefLines (stripCR content))

def firstMarker (s : List Char) : Option Nat := (findAll s instMarker).head?

theorem findAll_mem (s pat : List Char) (i : Nat) :
    i ∈ findAll s pat ↔ i < s.length ∧ pat.isPrefixOf (s.drop i) = true := by
  simp [findAll, List.mem_filter, List.mem_range]

theorem head?_mem {α : Type} {l : List α} {a : α} (h : l.head? = some a) : a ∈ l := by
  cases l with
  | nil => exact Option.noConfusion h
  | cons x xs =>
    have hx : x = a := by simpa using h
    rw [← hx]
    exact List.mem_cons_self x xs

theorem firstMarker_lt (s : List Char) (i : Nat) (h : firstMarker s = some i) :
    i < s.length := by
  have hm : i ∈ findAll s instMarker := head?_mem (by simpa [firstMarker] using h)
  exact ((findAll_mem s instMarker i).mp hm).1

theorem scanEndFuel_bounds (s : List Char) :
    ∀ (fuel i n e : Nat), i ≤ s.length → scanEndFuel s fuel i n = some e →
      i ≤ e ∧ e ≤ s.length ∧ (0 < n → i < e) := by
  intro fuel
  induction fuel with
  | zero =>
    intro i n e hi h
    cases n with
    | zero =>
      have he : i = e := by simpa [scanEndFuel] using h
      exact ⟨he ▸ le_refl i, he ▸ hi, fun h0 => absurd h0 (lt_irrefl 0)⟩
    | succ n' => simp [scanEndFuel] at h
  | succ fuel' ih =>
    intro i n e hi h
    cases n with
    | zero =>
      have he : i = e := by simpa [scanEndFuel] using h
      exact ⟨he ▸ le_refl i, he ▸ hi, fun h0 => absurd h0 (lt_irrefl 0)⟩
    | succ n' =>
      by_cases hlt : i < s.length
      · rw [scanEndFuel, dif_pos hlt] at h
        have hrec := ih (i + 1) _ e (by omega) h
        exact ⟨by omega, hrec.2.1, fun _ => by omega⟩
      · rw [scanEndFuel, dif_neg hlt] at h
        exact Option.noConfusion h

theorem scanEnd_bounds (s : List Char) (i n e : Nat) (hi : i ≤ s.length)
    (h : scanEnd s i n = some e) : i ≤ e ∧ e ≤ s.length ∧ (0 < n → i < e) :=
  scanEndFuel_bounds s (s.length - i) i n e hi h

theorem scanEnd_none_of_gt (s : List Char) (i n : Nat) (hi : s.length ≤ i) :
    scanEnd s i (n + 1) = none := by
  unfold scanEnd
  have h0 : s.length - i = 0 := by omega
  rw [h0]
  rfl

theorem scanEnd_block_pos (s : List Char) (i e : Nat) (hi : i < s.length)
    (h : scanEnd s (i + 1) 1 = some e) : i + 1 < e ∧ e ≤ s.length := by
  have hb := scanEnd_bounds s (i + 1) 1 e (by omega) h
  exact ⟨hb.2.2 (by omega), hb.2.1⟩

/-- Modelled from the spec: strip "any entire parenthesis-balanced block
introduced by an 'instances' marker" — remove the first marker's block, then
recurse on the remaining text (unchanged on an unbalanced scan, where the
code crashes instead). -/
def removeInstancesSpec (s : List Char) : List Char :=
  match h1 : firstMarker s with
  | none => s
  | some i =>
    match h2 : scanEnd s (i + 1) 1 with
    | none => s
    | some e => s.take i ++ removeInstancesSpec (s.drop e)
termination_by s.length
decreasing_by
  have hi := firstMarker_lt s i h1
  have hb := scanEnd_block_pos s i e hi h2
  simp only [List.length_drop]
  omega

/-- Modelled from the spec as amended: the same stripping, but the final
character of the segment after the last removed block is also dropped
(this is what the code's `[instance_end_old:-1]` slice does). -/
def removeInstancesSpecDrop (s : List Char) : List Char :=
  match h1 : firstMarker s with
  | none => s.dropLast
  | some i =>
    match h2 : scanEnd s (i + 1) 1 with
    | none => s.dropLast
    | some e => s.take i ++ removeInstancesSpecDrop (s.drop e)
termination_by s.length
decreasing_by
  have hi := firstMarker_lt s i h1
  have hb := scanEnd_block_pos s i e hi h2
  simp only [List.length_drop]
  omega

def specStripped (content : List Char) : List Char :=
  removeInstancesSpec (removeRefLines (stripCR content))

theorem removeInstancesSpec_none (s : List Char) (h : firstMarker s = none) :
    removeInstancesSpec s = s := by
  unfold removeInstancesSpec
  split
  · rfl
  · rename_i i h1
    rw [h] at h1
    exact Option.noConfusion h1

theorem removeInstancesSpecDrop_none (s : List Char) (h : firstMarker s = none) :
    removeInstancesSpecDrop s = s.dropLast := by
  unfold removeInstancesSpecDrop
  split
  · rfl
  · rename_i i h1
    rw [h] at h1
    exact Option.noConfusion h1

theorem removeInstancesSpecDrop_some (s : List Char) (i e : Nat)
    (h1 : firstMarker s = some i) (h2 : scanEnd s (i + 1) 1 = some e) :
    removeInstancesSpecDrop s = s.take i ++ removeInstancesSpecDrop (s.drop e) := by
  unfold removeInstancesSpecDrop
  split
  · rename_i h1'
    rw [h1] at h1'
    exact Option.noConfusion h1'
  · rename_i i' h1'
    rw [h1] at h1'
    have hi : i' = i := by
      injection h1' with h1''
      exact h1''.symm
    subst hi
    split
    · rename_i h2'
      rw [h2] at h2'
      exact Option.noConfusion h2'
    · rename_i e' h2'
      rw [h2] at h2'
      have he : e' = e := by
        injection h2' with h2''
        exact h2''.symm
      subst he
      conv_rhs => rw [← removeInstancesSpecDrop.eq_def]

def nonNestedLoop (s : List Char) : List Nat → Nat → Bool
  | [], _ => true
  | st :: rest, old =>
    if st < old then false
    else
      match scanEnd s (st + 1) 1 with
      | none => false
      | some e => nonNestedLoop s rest e

/-- Decidable side condition for the amended C4 claim: walking the marker
occurrences left to right, each one starts at or after the end of the
previous marker's block (no marker is nested inside an earlier block) and
every block scan terminates. -/
def nonNestedB (s : List Char) : Bool := nonNestedLoop s (findAll s instMarker) 0

theorem nonNestedLoop_mem (s : List Char) :
    ∀ (starts : List Nat) (old : Nat), nonNestedLoop s starts old = true →
      ∀ x ∈ starts, old ≤ x := by
  intro starts
  induction starts with
  | nil => intro old _ x hx; simp at hx
  | cons st rest ih =>
    intro old h x hx
    unfold nonNestedLoop at h
    by_cases hlt : st < old
    · rw [if_pos hlt] at h
      exact Bool.noConfusion h
    · rw [if_neg hlt] at h
      cases hsc : scanEnd s (st + 1) 1 with
      | none =>
        rw [hsc] at h
        exact Bool.noConfusion h
      | some e =>
        rw [hsc] at h
        rcases List.mem_cons.mp hx with hx' | hx'
        · subst hx'; omega
        · have hex := ih e h x hx'
          have hb : st + 1 ≤ e := by
            by_cases hsl : st + 1 ≤ s.length
            · exact (scanEnd_bounds s (st + 1) 1 e hsl hsc).1
            · exfalso
              have hn := scanEnd_none_of_gt s (st + 1) 0 (by omega)
              rw [hn] at hsc
              exact Option.noConfusion hsc
          omega

theorem scanEndFuel_drop (s : List Char) (d : Nat) (hd : d ≤ s.length) :
    ∀ (fuel i n : Nat),
      scanEndFuel (s.drop d) fuel i n =
        (scanEndFuel s fuel (d + i) n).map (fun e => e - d) := by
  intro fuel
  induction fuel with
  | zero =>
    intro i n
    cases n with
    | zero => simp [scanEndFuel]
    | succ n' => simp [scanEndFuel]
  | succ fuel' ih =>
    intro i n
    cases n with
    | zero => simp [scanEndFuel]
    | succ n' =>
      by_cases hlt : i < (s.drop d).length
      · have hlt2 : d + i < s.length := by
          rw [List.length_drop] at hlt
          omega
        rw [scanEndFuel, dif_pos hlt, scanEndFuel, dif_pos hlt2]
        simp only [List.getElem_drop]
        exact ih (i + 1) _
      · have hlt2 : ¬ d + i < s.length := by
          rw [List.length_drop] at hlt
          omega
        rw [scanEndFuel, dif_neg hlt, scanEndFuel, dif_neg hlt2]
        rfl

theorem scanEnd_drop (s : List Char) (d i n : Nat) (hd : d ≤ s.length) :
    scanEnd (s.drop d) i n = (scanEnd s (d + i) n).map (fun e => e - d) := by
  unfold scanEnd
  rw [List.length_drop]
  have heq : s.length - d - i = s.length - (d + i) := by omega
  rw [heq]
  exact scanEndFuel_drop s d hd (s.length - (d + i)) i n

theorem removeInstancesLoop_acc (s : List Char) :
    ∀ (starts : List Nat) (old : Nat) (acc : List Char),
      removeInstancesLoop s starts old acc =
        (removeInstancesLoop s starts old []).map (fun t => acc ++ t) := by
  intro starts
  induction starts with
  | nil => intro old acc; simp [removeInstancesLoop]
  | cons st rest ih =>
    intro old acc
    unfold removeInstancesLoop
    cases hsc : scanEnd s (st + 1) 1 with
    | none => rfl
    | some e =>
      dsimp only
      rw [ih e (acc ++ (s.drop old).take (st - old)),
        ih e ([] ++ (s.drop old).take (st - old)), Option.map_map]
      congr 1
      funext t
      simp [List.append_assoc]

theorem removeInstancesLoop_drop (s : List Char) (d : Nat) (hd : d ≤ s.length) :
    ∀ (starts : List Nat) (old : Nat), d ≤ old → (∀ x ∈ starts, d ≤ x) →
      removeInstancesLoop s starts old [] =
        removeInstancesLoop (s.drop d) (starts.map (fun x => x - d)) (old - d) [] := by
  intro starts
  induction starts with
  | nil =>
    intro old hold _
    simp only [removeInstancesLoop, List.map_nil]
    have hdd : (s.drop d).drop (old - d) = s.drop old := by
      rw [List.drop_drop]
      have h3 : d + (old - d) = old := by omega
      rw [h3]
    rw [hdd, List.length_drop]
    have h4 : s.length - d - 1 - (old - d) = s.length - 1 - old := by omega
    rw [h4]
  | cons st rest ih =>
    intro old hold hmem
    have hst : d ≤ st := hmem st (List.mem_cons_self _ _)
    simp only [removeInstancesLoop, List.map_cons]
    have hshift : scanEnd (s.drop d) (st - d + 1) 1 =
        (scanEnd s (st + 1) 1).map (fun e => e - d) := by
      have h1 : st - d + 1 = (st + 1) - d := by omega
      have h2 : d + ((st + 1) - d) = st + 1 := by omega
      rw [h1, scanEnd_drop s d ((st + 1) - d) 1 hd, h2]
    cases hsc : scanEnd s (st + 1) 1 with
    | none =>
      rw [hsc] at hshift
      simp only [Option.map_none'] at hshift
      rw [hshift]
    | some e =>
      rw [hsc] at hshift
      simp only [Option.map_some'] at hshift
      rw [hshift]
      dsimp only
      have he : st + 1 ≤ e := by
        by_cases hsl : st + 1 ≤ s.length
        · exact (scanEnd_bounds s (st + 1) 1 e hsl hsc).1
        · exfalso
          have hn := scanEnd_none_of_gt s (st + 1) 0 (by omega)
          rw [hn] at hsc
          exact Option.noConfusion hsc
      have hgap : (s.drop old).take (st - old) =
          ((s.drop d).drop (old - d)).take (st - d - (old - d)) := by
        rw [List.drop_drop]
        have h3 : d + (old - d) = old := by omega
        rw [h3]
        have h4 : st - d - (old - d) = st - old := by omega
        rw [h4]
      rw [removeInstancesLoop_acc s rest e,
        removeInstancesLoop_acc (s.drop d) (rest.map (fun x => x - d)) (e - d)]
      rw [ih e (by omega) (fun x hx => hmem x (List.mem_cons_of_mem _ hx))]
      rw [hgap]

theorem nonNestedLoop_drop (s : List Char) (d : Nat) (hd : d ≤ s.length) :
    ∀ (starts : List Nat) (old : Nat), d ≤ old → (∀ x ∈ starts, d ≤ x) →
      nonNestedLoop s starts old =
        nonNestedLoop (s.drop d) (starts.map (fun x => x - d)) (old - d) := by
  intro starts
  induction starts with
  | nil => intro old _ _; rfl
  | cons st rest ih =>
    intro old hold hmem
    have hst : d ≤ st := hmem st (List.mem_cons_self _ _)
    simp only [nonNestedLoop, List.map_cons]
    have hshift : scanEnd (s.drop d) (st - d + 1) 1 =
        (scanEnd s (st + 1) 1).map (fun e => e - d) := by
      have h1 : st - d + 1 = (st + 1) - d := by omega
      have h2 : d + ((st + 1) - d) = st + 1 := by omega
      rw [h1, scanEnd_drop s d ((st + 1) - d) 1 hd, h2]
    by_cases hlt : st < old
    · rw [if_pos hlt, if_pos (by omega : st - d < old - d)]
    · rw [if_neg hlt, if_neg (by omega : ¬ st - d < old - d)]
      cases hsc : scanEnd s (st + 1) 1 with
      | none =>
        rw [hsc] at hshift
        simp only [Option.map_none'] at hshift
        rw [hshift]
      | some e =>
        rw [hsc] at hshift
        simp only [Option.map_some'] at hshift
        rw [hshift]
        dsimp only
        have he : st + 1 ≤ e := by
          by_cases hsl : st + 1 ≤ s.length
          · exact (scanEnd_bounds s (st + 1) 1 e hsl hsc).1
          · exfalso
            have hn := scanEnd_none_of_gt s (st + 1) 0 (by omega)
            rw [hn] at hsc
            exact Option.noConfusion hsc
        exact ih e (by omega) (fun x hx => hmem x (List.mem_cons_of_mem _ hx))

theorem findAll_decompose (s pat : List Char) (e : Nat) (he : e ≤ s.length) :
    findAll s pat =
      (List.range e).filter (fun i => pat.isPrefixOf (s.drop i)) ++
        (findAll (s.drop e) pat).map (fun j => e + j) := by
  unfold findAll
  have hsplit : List.range s.length =
      List.range e ++ (List.range (s.length - e)).map (fun x => e + x) := by
    conv_lhs => rw [show s.length = e + (s.length - e) by omega]
    exact List.range_add e (s.length - e)
  rw [hsplit, List.filter_append, List.filter_map, List.length_drop]
  congr 1
  refine congrArg _ (List.filter_congr ?_)
  intro j _
  simp only [Function.comp]
  rw [List.drop_drop]

theorem append_eq_cons_split (e : Nat) (as bs cs : List Nat) (c : Nat)
    (h : as ++ bs = c :: cs) (hbs : ∀ x ∈ bs, e ≤ x)
    (hc : c < e) (hcs : ∀ x ∈ cs, e ≤ x) (has : ∀ x ∈ as, x < e) :
    as = [c] ∧ bs = cs := by
  cases as with
  | nil =>
    exfalso
    have hb : c ∈ bs := by
      rw [List.nil_append] at h
      rw [h]
      exact List.mem_cons_self c cs
    exact absurd hc (not_lt.mpr (hbs c hb))
  | cons a as' =>
    rw [List.cons_append] at h
    injection h with ha htail
    cases as' with
    | nil =>
      constructor
      · rw [ha]
      · rw [List.nil_append] at htail
        exact htail
    | cons a2 as'' =>
      exfalso
      have ha2cs : a2 ∈ cs := by
        rw [← htail]
        exact List.mem_append_left _ (List.mem_cons_self a2 as'')
      have hx1 := hcs a2 ha2cs
      have hx2 := has a2 (List.mem_cons_of_mem a (List.mem_cons_self a2 as''))
      omega

theorem codeCore_eq_specDrop : ∀ (N : Nat) (s : List Char), s.length ≤ N →
    nonNestedB s = true → codeFilteredCore s = some (removeInstancesSpecDrop s) := by
  intro N
  induction N with
  | zero =>
    intro s hlen hnn
    have hs : s = [] := List.length_eq_zero.mp (by omega)
    subst hs
    have hfm : firstMarker ([] : List Char) = none := rfl
    rw [removeInstancesSpecDrop_none _ hfm]
    rfl
  | succ N' ih =>
    intro s hlen hnn
    cases hfa : findAll s instMarker with
    | nil =>
      have hfm : firstMarker s = none := by
        unfold firstMarker
        rw [hfa]
        rfl
      rw [removeInstancesSpecDrop_none s hfm]
      unfold codeFilteredCore
      rw [hfa]
      unfold removeInstancesLoop
      rw [List.nil_append, List.drop_zero, Nat.sub_zero, ← List.dropLast_eq_take]
    | cons i rest =>
      have hnn2 : nonNestedLoop s (i :: rest) 0 = true := by
        unfold nonNestedB at hnn
        rw [hfa] at hnn
        exact hnn
      unfold nonNestedLoop at hnn2
      rw [if_neg (Nat.not_lt_zero i)] at hnn2
      cases hsc : scanEnd s (i + 1) 1 with
      | none =>
        rw [hsc] at hnn2
        exact Bool.noConfusion hnn2
      | some e =>
        rw [hsc] at hnn2
        have hmemi : i ∈ findAll s instMarker := by
          rw [hfa]
          exact List.mem_cons_self i rest
        have hi : i < s.length := ((findAll_mem s instMarker i).mp hmemi).1
        have hb := scanEnd_block_pos s i e hi hsc
        have hrest : ∀ x ∈ rest, e ≤ x := nonNestedLoop_mem s rest e hnn2
        have hdec := findAll_decompose s instMarker e hb.2
        rw [hfa] at hdec
        have hsplitres := append_eq_cons_split e _ _ rest i hdec.symm
          (fun x hx => by
            obtain ⟨j, _, hxj⟩ := List.mem_map.mp hx
            omega)
          (by omega)
          hrest
          (fun x hx => List.mem_range.mp (List.mem_filter.mp hx).1)
        have hF : (findAll (s.drop e) instMarker).map (fun j => e + j) = rest :=
          hsplitres.2
        have hF2 : rest.map (fun x => x - e) = findAll (s.drop e) instMarker := by
          rw [← hF, List.map_map]
          conv_rhs => rw [← List.map_id (findAll (s.drop e) instMarker)]
          exact List.map_congr_left (fun a _ => by
            simp only [Function.comp, id]
            omega)
        have hfm : firstMarker s = some i := by
          unfold firstMarker
          rw [hfa]
          rfl
        rw [removeInstancesSpecDrop_some s i e hfm hsc]
        unfold codeFilteredCore
        rw [hfa]
        unfold removeInstancesLoop
        rw [hsc]
        dsimp only
        rw [removeInstancesLoop_acc s rest e]
        rw [removeInstancesLoop_drop s e hb.2 rest e (le_refl e) hrest]
        rw [Nat.sub_self, hF2]
        have hnndrop : nonNestedB (s.drop e) = true := by
          unfold nonNestedB
          rw [← hF2]
          have hshift := nonNestedLoop_drop s e hb.2 rest e (le_refl e) hrest
          rw [Nat.sub_self] at hshift
          rw [← hshift]
          exact hnn2
        have hIH := ih (s.drop e) (by rw [List.length_drop]; omega) hnndrop
        unfold codeFilteredCore at hIH
        rw [hIH]
        simp only [Option.map_some']
        rw [List.nil_append, List.drop_zero, Nat.sub_zero]

/-- Claim C4 counterexample: on the content "abc" — no carriage returns, no
Reference line, no "(instances" marker — the claim says the hashed text is
"abc" unchanged, but `get_sch_hash`'s final slice `[instance_end_old:-1]`
drops the last character: the code hashes "ab". -/
theorem sch_hash_drops_final_char :
    codeFiltered ('a' :: 'b' :: 'c' :: []) = some ('a' :: 'b' :: []) ∧
    specStripped ('a' :: 'b' :: 'c' :: []) = 'a' :: 'b' :: 'c' :: [] ∧
    codeFiltered ('a' :: 'b' :: 'c' :: []) ≠
      some (specStripped ('a' :: 'b' :: 'c' :: [])) := by
  have h1 : codeFiltered ('a' :: 'b' :: 'c' :: []) = some ('a' :: 'b' :: []) := by
    rfl
  have h2 : specStripped ('a' :: 'b' :: 'c' :: []) = 'a' :: 'b' :: 'c' :: [] := by
    unfold specStripped
    rw [removeInstancesSpec_none _ (by rfl)]
    rfl
  refine ⟨h1, h2, ?_⟩
  rw [h1, h2]
  intro hcon
  exact absurd (Option.some.inj hcon) (by decide)

def pyIsSpace (c : Char) : Bool :=
  c = ' ' || c = '\t' || c = '\n' || c = '\r' || c = '\x0b' || c = '\x0c'

def nonEmptyLines (s : List Char) : List (List Char) :=
  (s.splitOn '\n').filter (fun l => l.any (fun c => ! pyIsSpace c))

def sortDigests (l : List (List Char)) : List (List Char) :=
  List.insertionSort (fun a b : List Char => a ≤ b) l

def get_sch_hash_digests (hash : List Char → List Char) (content : List Char) :
    Option (List (List Char)) :=
  (codeFiltered content).map (fun t => sortDigests ((nonEmptyLines t).map hash))

def get_sch_hash {D : Type} (hash : List Char → List Char) (upd : D → List Char → D)
    (md5state : D) (content : List Char) : Option D :=
  (get_sch_hash_digests hash content).map (fun hs => hs.foldl upd md5state)

/-- Claim C4 amended: when no "(instances" occurrence lies inside the block
of an earlier occurrence (and every block scan terminates — `nonNestedB`),
the text the code hashes equals the original content with carriage returns
removed, Reference-property lines removed, each marker's balanced block
removed, and additionally the final character of the segment following the
last removed block dropped (the `[instance_end_old:-1]` slice); the claim's
consequence stands unconditionally: two contents whose Reference-stripped
texts coincide — in particular contents differing only in the value of a
Reference property line — produce identical digest sequences. -/
theorem sch_hash_filter_amended (hash : List Char → List Char) (c c1 c2 : List Char)
    (hnn : nonNestedB (removeRefLines (stripCR c)) = true)
    (h12 : removeRefLines (stripCR c1) = removeRefLines (stripCR c2)) :
    codeFiltered c = some (removeInstancesSpecDrop (removeRefLines (stripCR c))) ∧
    get_sch_hash_digests hash c1 = get_sch_hash_digests hash c2 := by
  constructor
  · unfold codeFiltered
    exact codeCore_eq_specDrop (removeRefLines (stripCR c)).length
      (removeRefLines (stripCR c)) (le_refl _) hnn
  · unfold get_sch_hash_digests codeFiltered
    rw [h12]

/-- Witness for the amended C4 theorem, on a content with one genuine
"(instances …)" block. -/
theorem sch_hash_filter_amended_witness :
    codeFiltered "x(instancesy)z".toList =
      some (removeInstancesSpecDrop (removeRefLines (stripCR "x(instancesy)z".toList))) ∧
    get_sch_hash_digests (fun l => l) "a".toList =
      get_sch_hash_digests (fun l => l) "a".toList :=
  sch_hash_filter_amended (fun l => l) "x(instancesy)z".toList "a".toList "a".toList
    (by decide) rfl

theorem sortDigests_perm_eq (l1 l2 : List (List Char)) (h : l1.Perm l2) :
    sortDigests l1 = sortDigests l2 := by
  apply List.eq_of_perm_of_sorted (r := fun a b : List Char => a ≤ b)
  · exact (List.perm_insertionSort _ l1).trans
      (h.trans (List.perm_insertionSort _ l2).symm)
  · exact List.sorted_insertionSort _ l1
  · exact List.sorted_insertionSort _ l2

/-- Claim C5: the fingerprint is deterministic, and it is invariant under
line reordering — any two file contents whose filtered texts consist of the
same multiset of non-blank lines produce the same digest sequence, and
hence the same aggregate under any md5-state fold, because the per-line
digests are sorted (lexicographically on the digest text) before being
folded into the aggregate. -/
theorem fingerprint_deterministic_and_line_order_invariant {D : Type}
    (hash : List Char → List Char) (upd : D → List Char → D) (d0 : D)
    (c1 c2 t1 t2 : List Char)
    (h1 : codeFiltered c1 = some t1) (h2 : codeFiltered c2 = some t2)
    (hperm : (nonEmptyLines t1).Perm (nonEmptyLines t2)) :
    get_sch_hash hash upd d0 c1 = get_sch_hash hash upd d0 c1 ∧
    get_sch_hash hash upd d0 c1 = get_sch_hash hash upd d0 c2 := by
  refine ⟨rfl, ?_⟩
  unfold get_sch_hash get_sch_hash_digests
  rw [h1, h2]
  simp only [Option.map_some']
  rw [sortDigests_perm_eq _ _ (hperm.map hash)]

/-- Witness for C5: the contents "a\nb\n" and "b\na\n" — same line multiset
after filtering — fingerprint identically. -/
theorem fingerprint_deterministic_and_line_order_invariant_witness :
    get_sch_hash (fun l => l) (fun d l => d ++ l) ([] : List Char) "a\nb\n".toList =
      get_sch_hash (fun l => l) (fun d l => d ++ l) ([] : List Char) "a\nb\n".toList ∧
    get_sch_hash (fun l => l) (fun d l => d ++ l) ([] : List Char) "a\nb\n".toList =
      get_sch_hash (fun l => l) (fun d l => d ++ l) ([] : List Char) "b\na\n".toList :=
  fingerprint_deterministic_and_line_order_invariant (fun l => l) (fun d l => d ++ l)
    [] "a\nb\n".toList "b\na\n".toList ('a' :: '\n' :: 'b' :: [])
    ('b' :: '\n' :: 'a' :: []) (by decide) (by decide) (by decide)
